import Mathlib

/-!
Verification development for the miden-tutorials rust-client examples and the
local-first client state-synchronization engine they exercise.

Definitions in the `Miden` namespace fall in two groups:
- shallow embeddings of functions that appear verbatim in the repository
  (`wait_for_tx` / `wait_for_note`, the note-consumption polling loops,
  `get_oracle_foreign_accounts`);
- a model of the client engine (Store, sync, note matcher, transaction
  pipeline, prover dispatcher) whose implementation lives in the external
  `miden-client` SDK; those definitions carry a doc comment starting
  `Modelled from the spec:`.
-/

namespace Miden

/-! ### Transaction status and the commitment-waiting loops

Embedding of `wait_for_tx` (src/rust-client/src/bin/network_notes_counter_contract.rs,
lines 126-152) and the identically-shaped `wait_for_note`
(src/rust-client/src/bin/simple_bank_ntx.rs, lines 100-130).  Each iteration
syncs, fetches the transaction records matching the id, and breaks out of the
loop exactly when the first returned record's status is `Committed(_)`;
otherwise it sleeps and loops again.  The loop carries no attempt counter and
has no error exit for a transaction that never commits. -/

/-- Status of a transaction record as returned by `get_transactions`. -/
inductive TransactionStatus where
  | pending
  | committed (blockNum : Nat)
  | discarded
deriving DecidableEq, Repr

/-- Per-iteration check of `wait_for_tx`: the Rust code computes
`!txs.is_empty() && matches!(txs[0].status, TransactionStatus::Committed(_))`. -/
def txCommitted (txs : List TransactionStatus) : Bool :=
  match txs with
  | [] => false
  | t :: _ =>
    match t with
    | .committed _ => true
    | _ => false

/-- Fuel-indexed unrolling of the `wait_for_tx` loop.  `txsAt k` is the list of
transaction statuses the client observes at iteration `k` (after the k-th
`sync_state`).  The result is `some k` when the loop breaks at iteration `k`
within the given fuel, and `none` when the loop is still running after `fuel`
iterations. -/
def waitForTxFrom (txsAt : Nat → List TransactionStatus) : Nat → Nat → Option Nat
  | _, 0 => none
  | k, fuel + 1 =>
    if txCommitted (txsAt k) then some k else waitForTxFrom txsAt (k + 1) fuel

/-- The `wait_for_tx` loop started at iteration 0. -/
def waitForTx (txsAt : Nat → List TransactionStatus) (fuel : Nat) : Option Nat :=
  waitForTxFrom txsAt 0 fuel

/-- The loop never terminates on the observation trace `txsAt`: no amount of
fuel makes it break out. -/
def waitForTxDiverges (txsAt : Nat → List TransactionStatus) : Prop :=
  ∀ fuel, waitForTx txsAt fuel = none

/-- Observation trace of a transaction that never commits: every sync returns
the record still pending. -/
def foreverPending : Nat → List TransactionStatus :=
  fun _ => [TransactionStatus.pending]

/-- Example trace: the transaction is reported pending for the first two
iterations and committed from iteration 2 on. -/
def commitsAtTwo : Nat → List TransactionStatus :=
  fun k => if k < 2 then [TransactionStatus.pending] else [TransactionStatus.committed 5]

theorem waitForTxFrom_none_of_never (txsAt : Nat → List TransactionStatus)
    (h : ∀ j, txCommitted (txsAt j) = false) :
    ∀ fuel k, waitForTxFrom txsAt k fuel = none := by
  intro fuel
  induction fuel with
  | zero => intro k; rfl
  | succ n ih =>
    intro k
    simp only [waitForTxFrom, h k, if_neg]
    exact ih (k + 1)

theorem waitForTxFrom_some_of_first (txsAt : Nat → List TransactionStatus) :
    ∀ fuel s k, s ≤ k → k - s < fuel →
    (∀ j, s ≤ j → j < k → txCommitted (txsAt j) = false) →
    txCommitted (txsAt k) = true →
    waitForTxFrom txsAt s fuel = some k := by
  intro fuel
  induction fuel with
  | zero => intro s k _ hlt; omega
  | succ n ih =>
    intro s k hsk hlt hbefore hk
    by_cases hs : s = k
    · subst hs
      simp [waitForTxFrom, hk]
    · have hslt : s < k := lt_of_le_of_ne hsk hs
      have hfalse : txCommitted (txsAt s) = false := hbefore s le_rfl hslt
      simp only [waitForTxFrom, hfalse]
      exact ih (s + 1) k (by omega) (by omega)
        (fun j hj hjk => hbefore j (by omega) hjk) hk

/-- C1 counterexample: the claim asserts that `wait_for_tx` / `wait_for_note`
terminates with a `CommitmentTimeout` error after exhausting `max_attempts`
attempts and never loops without bound.  On the observation trace of a
transaction that never commits, the loop as written in the source diverges:
it takes no `max_attempts` parameter and its only exit is the commitment
check, so no amount of fuel makes it return. -/
theorem wait_for_tx_unbounded_cex : waitForTxDiverges foreverPending := by
  intro fuel
  exact waitForTxFrom_none_of_never foreverPending (fun _ => rfl) fuel 0

/-- C1 amended: `wait_for_tx` returns successfully at the first iteration `k`
whose sync reports the transaction committed (given enough fuel to reach it);
when the transaction never commits the loop never terminates — the code has
no `max_attempts` bound and no `CommitmentTimeout` error path. -/
theorem wait_for_tx_amended (txsAt : Nat → List TransactionStatus) (k : Nat)
    (hbefore : ∀ j, j < k → txCommitted (txsAt j) = false)
    (hk : txCommitted (txsAt k) = true) :
    (∀ fuel, k < fuel → waitForTx txsAt fuel = some k) ∧
      (∀ txsAt' : Nat → List TransactionStatus,
        (∀ j, txCommitted (txsAt' j) = false) → waitForTxDiverges txsAt') := by
  constructor
  · intro fuel hfuel
    exact waitForTxFrom_some_of_first txsAt fuel 0 k (Nat.zero_le k) (by omega)
      (fun j _ hjk => hbefore j hjk) hk
  · intro txsAt' h fuel
    exact waitForTxFrom_none_of_never txsAt' h fuel 0

/-- C1 amended witness: on the trace that commits at iteration 2, the loop
returns at iteration 2 when given fuel 3. -/
theorem wait_for_tx_amended_witness : waitForTx commitsAtTwo 3 = some 2 :=
  (wait_for_tx_amended commitsAtTwo 2
      (by intro j hj; interval_cases j <;> rfl) (by rfl)).1 3 (by omega)

/-! ### The note-consumption polling loops

Embedding of the loop bodies at lines 303-331 (Alice consumes her minted
note) and lines 491-519 (the staking contract consumes the staking note) of
src/rust-client/src/bin/network_notes_counter_contract.rs.  Each iteration
syncs, collects the ids of the notes `get_consumable_notes` reports for the
target account, and submits a consume-notes transaction built from that id
list exactly when the list has length 1; for any other length it sleeps and
retries. -/

/-- Identifier of a note, as collected from `get_consumable_notes`. -/
abbrev NoteId := Nat

/-- Action one loop iteration takes, as a function of the consumable-note id
list observed in that iteration. -/
inductive ConsumeIterAction where
  | consumeNotes (ids : List NoteId)
  | waitRetry
deriving DecidableEq, Repr

/-- Body of the note-consumption polling loop: build and submit a consume
transaction from the observed id list iff that list has exactly one element,
otherwise sleep and retry. -/
def consumeLoopBody (ids : List NoteId) : ConsumeIterAction :=
  if ids.length = 1 then .consumeNotes ids else .waitRetry

/-- Fuel-indexed unrolling of the consumption polling loop starting at
iteration `k`; `notesAt k` is the consumable-note id list observed at
iteration `k`.  Returns the id list from which a consume-notes transaction
was built, or `none` if the loop is still polling after `fuel` iterations. -/
def consumeLoopRun (notesAt : Nat → List NoteId) : Nat → Nat → Option (List NoteId)
  | _, 0 => none
  | k, fuel + 1 =>
    match consumeLoopBody (notesAt k) with
    | .consumeNotes ids => some ids
    | .waitRetry => consumeLoopRun notesAt (k + 1) fuel

theorem consumeLoopBody_consume_length (ids l : List NoteId)
    (h : consumeLoopBody ids = .consumeNotes l) : l.length = 1 := by
  unfold consumeLoopBody at h
  split at h
  · cases h
    assumption
  · cases h

/-- Example observation trace for the consumption loop: no notes at iteration
0, two notes at iteration 1, exactly one note from iteration 2 on. -/
def exampleNotesTrace : Nat → List NoteId :=
  fun k => if k = 0 then [] else if k = 1 then [7, 8] else [7]

/-- C10: whenever the polling loop submits a consume-notes transaction, the
note-id list the request was built from has exactly one element; iterations
observing any other count perform no transaction. -/
theorem consume_request_single_note (notesAt : Nat → List NoteId)
    (k fuel : Nat) (ids : List NoteId)
    (h : consumeLoopRun notesAt k fuel = some ids) : ids.length = 1 := by
  induction fuel generalizing k with
  | zero => cases h
  | succ n ih =>
    unfold consumeLoopRun at h
    cases hb : consumeLoopBody (notesAt k) with
    | consumeNotes l =>
      rw [hb] at h
      cases h
      exact consumeLoopBody_consume_length (notesAt k) ids hb
    | waitRetry =>
      rw [hb] at h
      exact ih (k + 1) h

/-- C10 witness: on the example trace the loop submits at iteration 2 with the
singleton list `[7]`, and the theorem instantiated there gives length 1. -/
theorem consume_request_single_note_witness :
    consumeLoopRun exampleNotesTrace 0 5 = some [7] ∧ ([7] : List NoteId).length = 1 :=
  ⟨by decide, consume_request_single_note exampleNotesTrace 0 5 [7] (by decide)⟩

/-! ### get_oracle_foreign_accounts (src/rust-client/src/bin/oracle_data_query.rs, lines 24-73)

The function reads the publisher count `n` from element 0 of storage slot 1,
collects the account ids stored in the word at slot `2 + i` (u8 arithmetic)
for `i` in the Rust range `1..n.saturating_sub(1)`, builds one public
`ForeignAccount` per publisher with a storage-map-key requirement on slot 1
for the requested trading pair, and appends the oracle's own `ForeignAccount`
with default (empty) requirements.  Storage slots are indexed by `u8` and a
Miden account storage holds at most 255 slots, so a storage is a list of at
most 255 words; a failed `get_item(..).unwrap()` (missing slot) is a panic,
embedded as `none`. -/

/-- Field-element word: four u64 values. -/
structure Word where
  e0 : Nat
  e1 : Nat
  e2 : Nat
  e3 : Nat
deriving DecidableEq, Repr

/-- Account identifier built by `AccountId::new_unchecked([words[3], words[2]])`. -/
structure AccountId where
  firstFelt : Nat
  secondFelt : Nat
deriving DecidableEq, Repr

/-- Account storage: slot `i` is `slots.get? i`; `get? i = none` models the
panic of `get_item(i).unwrap()` on a missing slot. -/
abbrev Storage := List Word

/-- One storage-slot requirement of an `AccountStorageRequirements` value:
a slot index together with the storage-map keys to pull. -/
structure SlotRequirement where
  slotIndex : Nat
  mapKeys : List Word
deriving DecidableEq, Repr

/-- Public foreign-account request: account id plus storage requirements
(empty list is `AccountStorageRequirements::default()`). -/
structure ForeignAccount where
  accountId : AccountId
  requirements : List SlotRequirement
deriving DecidableEq, Repr

/-- Conversion performed per publisher digest word:
`AccountId::new_unchecked([words[3], words[2]])`. -/
def wordToAccountId (w : Word) : AccountId :=
  ⟨w.e3, w.e2⟩

/-- Requirements attached to each publisher:
slot 1 with map key `[0, 0, 0, trading_pair]`. -/
def publisherRequirements (tradingPair : Nat) : List SlotRequirement :=
  [⟨1, [⟨0, 0, 0, tradingPair⟩]⟩]

/-- Slot indices the code reads publisher digests from: the Rust iterator
`(1..publisher_count.saturating_sub(1)).map(|i| 2 + i as u8)`; `u8`
truncation and wrapping addition are `% 256`. -/
def publisherSlots (publisherCount : Nat) : List Nat :=
  (List.range' 1 (publisherCount - 1 - 1)).map (fun i => (2 + i % 256) % 256)

/-- Sequential traversal that stops at the first `none`, mirroring a Rust
`map(..unwrap()).collect()` that panics at the first missing slot. -/
def optTraverse (f : α → Option β) : List α → Option (List β)
  | [] => some []
  | a :: as =>
    match f a with
    | none => none
    | some b =>
      match optTraverse f as with
      | none => none
      | some bs => some (b :: bs)

/-- Embedding of `get_oracle_foreign_accounts`: the pure list computation of
the function (the interleaved `import_account_by_id` calls do not affect the
returned list). -/
def getOracleForeignAccounts (storage : Storage) (oracleId : AccountId)
    (tradingPair : Nat) : Option (List ForeignAccount) :=
  match storage.get? 1 with
  | none => none
  | some countWord =>
    match optTraverse (fun s => storage.get? s) (publisherSlots countWord.e0) with
    | none => none
    | some pubWords =>
      some (pubWords.map
          (fun w => ForeignAccount.mk (wordToAccountId w) (publisherRequirements tradingPair))
        ++ [ForeignAccount.mk oracleId []])

/-- Slot indices 3 through n, as the claim words them ("taken in order from
storage slots 3 through n", with `max(n - 2, 0)` of them). -/
def claimedSlots (publisherCount : Nat) : List Nat :=
  List.range' 3 (publisherCount - 2)

/-- Statement of claim C9's description of the result, written from the
claim's words for comparison with the embedding: the publisher entries are
read in order from storage slots 3 through n and followed by the oracle's
own entry with default requirements. -/
def claimedOracleForeignAccounts (storage : Storage) (oracleId : AccountId)
    (tradingPair : Nat) : Option (List ForeignAccount) :=
  match storage.get? 1 with
  | none => none
  | some countWord =>
    match optTraverse (fun s => storage.get? s) (claimedSlots countWord.e0) with
    | none => none
    | some pubWords =>
      some (pubWords.map
          (fun w => ForeignAccount.mk (wordToAccountId w) (publisherRequirements tradingPair))
        ++ [ForeignAccount.mk oracleId []])

theorem publisherSlots_eq_claimedSlots (n : Nat) (hn : n ≤ 255) :
    publisherSlots n = claimedSlots n := by
  unfold publisherSlots claimedSlots
  have hsub : n - 1 - 1 = n - 2 := by omega
  rw [hsub]
  have hmap : ∀ i ∈ List.range' 1 (n - 2), (2 + i % 256) % 256 = 2 + i := by
    intro i hi
    rw [List.mem_range'_1] at hi
    have h1 : i % 256 = i := Nat.mod_eq_of_lt (by omega)
    rw [h1]
    exact Nat.mod_eq_of_lt (by omega)
  rw [List.map_congr_left hmap]
  exact List.map_add_range' 2 1 (n - 2) 1

theorem optTraverse_none_of_mem (f : α → Option β) (xs : List α) (a : α)
    (ha : a ∈ xs) (hf : f a = none) : optTraverse f xs = none := by
  induction xs with
  | nil => cases ha
  | cons x xs ih =>
    unfold optTraverse
    rcases List.mem_cons.1 ha with rfl | hmem
    · rw [hf]
    · cases hx : f x
      · rfl
      · rw [ih hmem]

theorem optTraverse_some_length (f : α → Option β) (xs : List α) (ys : List β)
    (h : optTraverse f xs = some ys) : ys.length = xs.length := by
  induction xs generalizing ys with
  | nil =>
    cases h
    rfl
  | cons x xs ih =>
    unfold optTraverse at h
    cases hx : f x with
    | none => rw [hx] at h; cases h
    | some b =>
      rw [hx] at h
      cases ht : optTraverse f xs with
      | none => rw [ht] at h; cases h
      | some bs =>
        rw [ht] at h
        cases h
        simp [ih bs ht]

theorem slot255_unreadable (storage : Storage) (hlen : storage.length ≤ 255) :
    storage.get? 255 = none :=
  List.get?_eq_none.2 hlen

theorem mem_publisherSlots_255 (n : Nat) (hn : 256 ≤ n) :
    (255 : Nat) ∈ publisherSlots n := by
  unfold publisherSlots
  rw [List.mem_map]
  refine ⟨253, ?_, by norm_num⟩
  rw [List.mem_range'_1]
  omega

theorem mem_claimedSlots_255 (n : Nat) (hn : 256 ≤ n) :
    (255 : Nat) ∈ claimedSlots n := by
  unfold claimedSlots
  rw [List.mem_range'_1]
  omega

/-- C9: over every account storage (at most 255 u8-indexed slots), the
embedding of `get_oracle_foreign_accounts` agrees with the claim's
description: when it returns, the list is `max(n - 2, 0)` publisher entries
read in order from slots 3 through n, followed by the oracle's own entry;
for `n ≤ 2` the list is exactly the oracle entry, the Rust
`saturating_sub` (Nat subtraction here) never underflowing. -/
theorem get_oracle_foreign_accounts_spec (storage : Storage) (oracleId : AccountId)
    (tradingPair : Nat) (hlen : storage.length ≤ 255) :
    getOracleForeignAccounts storage oracleId tradingPair =
      claimedOracleForeignAccounts storage oracleId tradingPair ∧
    (∀ l countWord, storage.get? 1 = some countWord →
      getOracleForeignAccounts storage oracleId tradingPair = some l →
      l.length = (countWord.e0 - 2) + 1 ∧
      l.getLast? = some (ForeignAccount.mk oracleId []) ∧
      (countWord.e0 ≤ 2 → l = [ForeignAccount.mk oracleId []])) := by
  constructor
  · unfold getOracleForeignAccounts claimedOracleForeignAccounts
    cases hw : storage.get? 1 with
    | none => rfl
    | some countWord =>
      dsimp only
      by_cases hn : countWord.e0 ≤ 255
      · rw [publisherSlots_eq_claimedSlots countWord.e0 hn]
      · rw [optTraverse_none_of_mem _ _ 255 (mem_publisherSlots_255 countWord.e0 (by omega))
            (slot255_unreadable storage hlen),
          optTraverse_none_of_mem _ _ 255 (mem_claimedSlots_255 countWord.e0 (by omega))
            (slot255_unreadable storage hlen)]
  · intro l countWord hw hl
    unfold getOracleForeignAccounts at hl
    rw [hw] at hl
    dsimp only at hl
    cases ht : optTraverse (fun s => storage.get? s) (publisherSlots countWord.e0) with
    | none => rw [ht] at hl; cases hl
    | some pubWords =>
      rw [ht] at hl
      cases hl
      have hplen : pubWords.length = countWord.e0 - 2 := by
        have := optTraverse_some_length _ _ _ ht
        rw [this]
        unfold publisherSlots
        rw [List.length_map, List.length_range']
        omega
      refine ⟨?_, List.getLast?_concat _, ?_⟩
      · rw [List.length_append, List.length_map, hplen]
        rfl
      · intro h2
        have hnil : pubWords = [] := List.length_eq_zero.1 (by omega)
        rw [hnil]
        rfl

/-- Concrete five-slot oracle storage: slot 1 holds publisher count 4, slots
3 and 4 hold the publisher digest words. -/
def exampleOracleStorage : Storage :=
  [⟨0, 0, 0, 0⟩, ⟨4, 0, 0, 0⟩, ⟨9, 9, 9, 9⟩, ⟨0, 0, 21, 11⟩, ⟨0, 0, 22, 12⟩]

/-- C9 witness: on the concrete five-slot storage with publisher count 4, the
function returns the two publisher entries from slots 3 and 4 followed by
the oracle entry, matching every conjunct of the theorem. -/
theorem get_oracle_foreign_accounts_spec_witness :
    getOracleForeignAccounts exampleOracleStorage ⟨1, 2⟩ 77 =
      claimedOracleForeignAccounts exampleOracleStorage ⟨1, 2⟩ 77 ∧
    getOracleForeignAccounts exampleOracleStorage ⟨1, 2⟩ 77 =
      some [⟨⟨11, 21⟩, publisherRequirements 77⟩, ⟨⟨12, 22⟩, publisherRequirements 77⟩,
        ⟨⟨1, 2⟩, []⟩] :=
  ⟨(get_oracle_foreign_accounts_spec exampleOracleStorage ⟨1, 2⟩ 77 (by decide)).1,
    by decide⟩

/-! ### The client state-synchronization engine

The Store, Chain Sync Client, Note Matcher, Transaction Builder/Executor,
Prover Dispatcher and Submission Pipeline live in the external `miden-client`
SDK; the repository only calls them.  The definitions below are therefore
modelled from the spec (sections 3, 4.1-4.6), not translated from source in
this repository. -/

/-- Account identifier of the engine model (opaque fixed-width id). -/
abbrev AcctId := Nat

/-- Transaction identifier (digest of inputs, outputs, script and account). -/
abbrev TxId := Nat

/-- Modelled from the spec: AccountRecord — identity, current nonce, and the
deterministic storage commitment (the SDK's account record type is not part
of this repository; storage, vault and flags are collapsed into the
commitment digest, which the claims do not inspect). -/
structure AccountRecord where
  id : AcctId
  nonce : Nat
  storageCommitment : Nat
deriving DecidableEq, Repr

/-- Modelled from the spec: local lifecycle status of a note — unconsumed, or
consumed by exactly the recorded transaction (consumption status mirrored
locally). -/
inductive NoteStatus where
  | unconsumed
  | consumed (txId : TxId)
deriving DecidableEq, Repr

/-- Modelled from the spec: NoteRecord — identity, routing tag (the account
the note targets) and consumption status. -/
structure NoteRecord where
  id : NoteId
  tag : AcctId
  status : NoteStatus
deriving DecidableEq, Repr

/-- Modelled from the spec: TransactionRecord — id, owning account, ordered
input notes, and status (Pending → Committed | Discarded), reusing the
status type of the embedded wait loops. -/
structure TransactionRecord where
  id : TxId
  accountId : AcctId
  inputNotes : List NoteId
  status : TransactionStatus
deriving DecidableEq, Repr

/-- Modelled from the spec: the State Store — record tables for accounts,
notes and transactions plus the SyncCheckpoint singleton. -/
structure Store where
  accounts : List AccountRecord
  notes : List NoteRecord
  transactions : List TransactionRecord
  checkpoint : Nat
deriving DecidableEq, Repr

/-- Store lookup `get_account(id)`: `NotFound` is `none`. -/
def getAccount (s : Store) (a : AcctId) : Option AccountRecord :=
  s.accounts.find? (fun r => r.id == a)

/-- Modelled from the spec: the delta a sync cycle pulls from the remote node
since the current checkpoint. -/
structure SyncDelta where
  blockNum : Nat
  accounts : List AccountRecord
  newNotes : List NoteRecord
  committedTxs : List (TxId × Nat)
deriving DecidableEq, Repr

/-- Modelled from the spec: monotonic merge of one remote account record —
overwrite the local record iff the remote nonce is ≥ the local nonce (stale
remote responses are silently ignored); unknown accounts are inserted. -/
def mergeAccount (accs : List AccountRecord) (r : AccountRecord) : List AccountRecord :=
  match accs.find? (fun l => l.id == r.id) with
  | some l =>
    if l.nonce ≤ r.nonce then accs.map (fun x => if x.id == r.id then r else x) else accs
  | none => accs ++ [r]

/-- Modelled from the spec: insert a synced note if absent (by id). -/
def insertNote (notes : List NoteRecord) (n : NoteRecord) : List NoteRecord :=
  if notes.any (fun m => m.id == n.id) then notes else notes ++ [n]

/-- Modelled from the spec: mark the input notes of transaction `tid` as
consumed by it; a note already consumed (by any transaction) is never
touched, so consumption is recorded exactly once. -/
def consumeInputs (notes : List NoteRecord) (inputs : List NoteId) (tid : TxId) :
    List NoteRecord :=
  notes.map (fun n =>
    if n.id ∈ inputs ∧ n.status = .unconsumed then { n with status := .consumed tid } else n)

/-- Modelled from the spec: apply one committed transaction id from the
delta — transition the matching Pending record to Committed at the commit
height and mirror the consumption of its input notes. -/
def applyCommit (s : Store) (c : TxId × Nat) : Store :=
  match s.transactions.find? (fun t => t.id == c.1) with
  | none => s
  | some t =>
    { s with
      transactions := s.transactions.map (fun u =>
        if u.id = c.1 ∧ u.status = .pending then { u with status := .committed c.2 } else u),
      notes := consumeInputs s.notes t.inputNotes c.1 }

/-- A pending transaction conflicts when one of its inputs is recorded as
consumed by a different transaction. -/
def conflictsWith (notes : List NoteRecord) (t : TransactionRecord) : Bool :=
  t.inputNotes.any (fun nid => notes.any (fun n =>
    n.id == nid &&
      match n.status with
      | .consumed tid => tid != t.id
      | _ => false))

/-- Discard a pending transaction whose inputs were consumed by a different
transaction; all other records are left alone. -/
def discardOne (notes : List NoteRecord) (t : TransactionRecord) : TransactionRecord :=
  if t.status = .pending ∧ conflictsWith notes t then { t with status := .discarded } else t

/-- Pass the discard rule over the whole transaction table. -/
def discardConflicting (txs : List TransactionRecord) (notes : List NoteRecord) :
    List TransactionRecord :=
  txs.map (discardOne notes)

/-- Modelled from the spec: sync() — merge the remote accounts monotonically,
insert the new notes if absent, transition the committed transactions and
mirror their note consumption, discard conflicting pending transactions, and
advance the checkpoint to the delta's block number. -/
def sync (s : Store) (d : SyncDelta) : Store :=
  let s1 := { s with accounts := d.accounts.foldl mergeAccount s.accounts }
  let s2 := { s1 with notes := d.newNotes.foldl insertNote s1.notes }
  let s3 := d.committedTxs.foldl applyCommit s2
  { s3 with transactions := discardConflicting s3.transactions s3.notes, checkpoint := d.blockNum }

/-- The remote node reported nothing new since the Store's checkpoint: empty
delta at the same block. -/
def noNewData (s : Store) (d : SyncDelta) : Prop :=
  d.accounts = [] ∧ d.newNotes = [] ∧ d.committedTxs = [] ∧ d.blockNum = s.checkpoint

theorem discardOne_idem (notes : List NoteRecord) (t : TransactionRecord) :
    discardOne notes (discardOne notes t) = discardOne notes t := by
  unfold discardOne
  by_cases h : t.status = .pending ∧ conflictsWith notes t
  · rw [if_pos h]
    rw [if_neg]
    intro hcontra
    exact absurd hcontra.1 (by simp)
  · rw [if_neg h, if_neg h]

theorem discardConflicting_idem (txs : List TransactionRecord) (notes : List NoteRecord) :
    discardConflicting (discardConflicting txs notes) notes = discardConflicting txs notes := by
  unfold discardConflicting
  rw [List.map_map]
  exact List.map_congr_left (fun t _ => discardOne_idem notes t)

theorem sync_discard_stable (s : Store) (d : SyncDelta) :
    discardConflicting (sync s d).transactions (sync s d).notes = (sync s d).transactions := by
  unfold sync
  exact discardConflicting_idem _ _

theorem sync_empty_delta (t : Store) (d' : SyncDelta) (h : noNewData t d') :
    sync t d' = { t with transactions := discardConflicting t.transactions t.notes } := by
  obtain ⟨ha, hn, hc, hb⟩ := h
  unfold sync
  rw [ha, hn, hc, hb]
  rfl

/-- C4: sync() is idempotent — a second sync() against a remote that has
nothing new since the first leaves accounts, notes, transactions and the
checkpoint exactly as the first sync() left them. -/
theorem sync_idempotent (s : Store) (d d' : SyncDelta)
    (h : noNewData (sync s d) d') : sync (sync s d) d' = sync s d := by
  rw [sync_empty_delta (sync s d) d' h, sync_discard_stable s d]

/-- Store with one unconsumed note and one pending transaction consuming it. -/
def exampleStoreForSync : Store :=
  ⟨[⟨5, 3, 0⟩], [⟨40, 5, .unconsumed⟩], [⟨90, 5, [40], .pending⟩], 0⟩

/-- First delta: block 7 commits transaction 90. -/
def exampleCommitDelta : SyncDelta :=
  ⟨7, [], [], [(90, 7)]⟩

/-- Second delta: nothing new at block 7. -/
def exampleEmptyDelta : SyncDelta :=
  ⟨7, [], [], []⟩

/-- C4 witness: after syncing the committing delta, syncing the empty delta
at the same block leaves the Store exactly as it was. -/
theorem sync_idempotent_witness :
    sync (sync exampleStoreForSync exampleCommitDelta) exampleEmptyDelta =
      sync exampleStoreForSync exampleCommitDelta :=
  sync_idempotent exampleStoreForSync exampleCommitDelta exampleEmptyDelta
    ⟨rfl, rfl, rfl, by decide⟩

/-- Modelled from the spec: upsert of a transaction record (atomic
per-record). -/
def insertTx (txs : List TransactionRecord) (t : TransactionRecord) :
    List TransactionRecord :=
  if txs.any (fun u => u.id == t.id) then txs.map (fun u => if u.id == t.id then t else u)
  else txs ++ [t]

/-- Modelled from the spec: speculative application of a submitted
transaction — the record goes in as Pending, the account's nonce is bumped
by one (each transaction consumes the current nonce), and the consumed input
notes are mirrored locally. -/
def applyTransaction (s : Store) (t : TransactionRecord) : Store :=
  { s with
    accounts := s.accounts.map (fun a =>
      if a.id == t.accountId then { a with nonce := a.nonce + 1 } else a),
    transactions := insertTx s.transactions { t with status := .pending },
    notes := consumeInputs s.notes t.inputNotes t.id }

theorem find?_replace (accs : List AccountRecord) (r l : AccountRecord)
    (hf : accs.find? (fun x => x.id == r.id) = some l) :
    (accs.map (fun x => if x.id == r.id then r else x)).find? (fun x => x.id == r.id) =
      some r := by
  induction accs with
  | nil => cases hf
  | cons a as ih =>
    by_cases ha : a.id = r.id
    · simp [List.find?_cons, ha]
    · rw [List.find?_cons_of_neg _ (by simp [ha])] at hf
      simp only [List.map_cons, if_neg (by simp [ha] : ¬(a.id == r.id) = true)]
      rw [List.find?_cons_of_neg _ (by simp [ha])]
      exact ih hf

theorem find?_bump (accs : List AccountRecord) (aid : AcctId) :
    (accs.map (fun a => if a.id == aid then { a with nonce := a.nonce + 1 } else a)).find?
        (fun x => x.id == aid) =
      (accs.find? (fun x => x.id == aid)).map (fun a => { a with nonce := a.nonce + 1 }) := by
  induction accs with
  | nil => rfl
  | cons a as ih =>
    by_cases ha : a.id = aid
    · simp [List.find?_cons, ha]
    · simp only [List.map_cons, if_neg (by simp [ha] : ¬(a.id == aid) = true)]
      rw [List.find?_cons_of_neg _ (by simp [ha]), List.find?_cons_of_neg _ (by simp [ha]), ih]

theorem applyCommit_accounts (s : Store) (c : TxId × Nat) :
    (applyCommit s c).accounts = s.accounts := by
  unfold applyCommit
  cases s.transactions.find? (fun t => t.id == c.1) <;> rfl

theorem foldl_applyCommit_accounts (cs : List (TxId × Nat)) (s : Store) :
    (cs.foldl applyCommit s).accounts = s.accounts := by
  induction cs generalizing s with
  | nil => rfl
  | cons c cs ih => rw [List.foldl_cons, ih, applyCommit_accounts]

theorem sync_accounts (s : Store) (d : SyncDelta) :
    (sync s d).accounts = d.accounts.foldl mergeAccount s.accounts := by
  unfold sync
  exact foldl_applyCommit_accounts d.committedTxs _

/-- C3: the locally stored nonce is monotone under sync and transactions —
a remote record with nonce ≥ the local nonce overwrites the local record
(so once sync has converged with the remote truth the stored nonce equals
the remote nonce), a stale remote record with a smaller nonce is silently
ignored, an account unknown locally is adopted from the remote, and applying
a transaction strictly increases the account's nonce by one. -/
theorem sync_nonce_monotone (s : Store) (r l : AccountRecord) (d : SyncDelta)
    (t : TransactionRecord) (hd : d.accounts = [r]) :
    (getAccount s r.id = some l → l.nonce ≤ r.nonce → getAccount (sync s d) r.id = some r) ∧
    (getAccount s r.id = some l → r.nonce < l.nonce → getAccount (sync s d) r.id = some l) ∧
    (getAccount s r.id = none → getAccount (sync s d) r.id = some r) ∧
    ((getAccount (applyTransaction s t) t.accountId).map AccountRecord.nonce =
      (getAccount s t.accountId).map (fun a => a.nonce + 1)) := by
  have hacc : (sync s d).accounts = mergeAccount s.accounts r := by
    rw [sync_accounts, hd]
    rfl
  refine ⟨?_, ?_, ?_, ?_⟩
  · intro hl hle
    have hl' : s.accounts.find? (fun x => x.id == r.id) = some l := hl
    unfold getAccount
    rw [hacc]
    unfold mergeAccount
    rw [hl']
    dsimp only
    rw [if_pos hle]
    exact find?_replace s.accounts r l hl'
  · intro hl hlt
    have hl' : s.accounts.find? (fun x => x.id == r.id) = some l := hl
    unfold getAccount
    rw [hacc]
    unfold mergeAccount
    rw [hl']
    dsimp only
    rw [if_neg (by omega)]
    exact hl'
  · intro hnone
    have hnone' : s.accounts.find? (fun x => x.id == r.id) = none := hnone
    unfold getAccount
    rw [hacc]
    unfold mergeAccount
    rw [hnone']
    dsimp only
    rw [List.find?_append, hnone']
    simp
  · unfold getAccount applyTransaction
    rw [find?_bump]
    cases s.accounts.find? (fun x => x.id == t.accountId) <;> rfl

/-- Store holding account 5 at nonce 3. -/
def exampleStoreForNonce : Store :=
  ⟨[⟨5, 3, 0⟩], [], [], 0⟩

/-- Remote delta carrying account 5 at nonce 10. -/
def exampleNonceDelta : SyncDelta :=
  ⟨9, [⟨5, 10, 1⟩], [], []⟩

/-- A transaction of account 5. -/
def exampleNonceTx : TransactionRecord :=
  ⟨91, 5, [], .pending⟩

/-- C3 witness: the remote record with nonce 10 ≥ local nonce 3 overwrites
the local record on sync, and applying a transaction bumps the mapped nonce. -/
theorem sync_nonce_monotone_witness :
    getAccount (sync exampleStoreForNonce exampleNonceDelta) 5 = some ⟨5, 10, 1⟩ :=
  (sync_nonce_monotone exampleStoreForNonce ⟨5, 10, 1⟩ ⟨5, 3, 0⟩ exampleNonceDelta
      exampleNonceTx rfl).1 rfl (by decide)

/-! ### Note matcher and the no-double-consumption invariant -/

/-- Note status test used by the matcher. -/
def isUnconsumed : NoteStatus → Bool
  | .unconsumed => true
  | _ => false

/-- Modelled from the spec: consumable_notes(account_id) — the notes whose
status is unconsumed and whose routing tag matches the account. -/
def consumableNotes (s : Store) (a : AcctId) : List NoteRecord :=
  s.notes.filter (fun n => isUnconsumed n.status && n.tag == a)

/-- Some record of note `nid` in the list is marked consumed by transaction
`tid`. -/
abbrev consumedIn (l : List NoteRecord) (nid : NoteId) (tid : TxId) : Prop :=
  ∃ n ∈ l, n.id = nid ∧ n.status = .consumed tid

/-- Note table well-formedness: note ids identify records uniquely. -/
abbrev notesWFList (l : List NoteRecord) : Prop :=
  ∀ m ∈ l, ∀ n ∈ l, m.id = n.id → m = n

/-- The Store's note table is well-formed. -/
abbrev NotesWF (s : Store) : Prop :=
  notesWFList s.notes

/-- Note `nid` is recorded in the Store as consumed by transaction `tid`. -/
abbrev noteConsumedBy (s : Store) (nid : NoteId) (tid : TxId) : Prop :=
  consumedIn s.notes nid tid

/-- Modelled from the spec: the operations that mutate the Store over a
session — a sync cycle with some remote delta, and the speculative
application of a submitted transaction (execute and prove do not touch the
Store). -/
inductive Step : Store → Store → Prop where
  | syncStep (s : Store) (d : SyncDelta) : Step s (sync s d)
  | applyStep (s : Store) (t : TransactionRecord) : Step s (applyTransaction s t)

theorem consumeInputs_id (inputs : List NoteId) (tid : TxId)
    (n : NoteRecord) :
    ((fun n => if n.id ∈ inputs ∧ n.status = .unconsumed
        then { n with status := NoteStatus.consumed tid } else n) n).id = n.id := by
  dsimp only
  split <;> rfl

theorem consumeInputs_wf (notes : List NoteRecord) (inputs : List NoteId) (tid : TxId)
    (hwf : notesWFList notes) : notesWFList (consumeInputs notes inputs tid) := by
  intro m hm n hn hid
  unfold consumeInputs at hm hn
  obtain ⟨m0, hm0, rfl⟩ := List.mem_map.1 hm
  obtain ⟨n0, hn0, rfl⟩ := List.mem_map.1 hn
  rw [consumeInputs_id inputs tid m0, consumeInputs_id inputs tid n0] at hid
  rw [hwf m0 hm0 n0 hn0 hid]

theorem consumeInputs_consumed (notes : List NoteRecord) (inputs : List NoteId)
    (tid tid' : TxId) (nid : NoteId) (hc : consumedIn notes nid tid) :
    consumedIn (consumeInputs notes inputs tid') nid tid := by
  obtain ⟨n, hn, hnid, hst⟩ := hc
  refine ⟨n, ?_, hnid, hst⟩
  unfold consumeInputs
  have hfix : (if n.id ∈ inputs ∧ n.status = .unconsumed
      then { n with status := NoteStatus.consumed tid' } else n) = n := by
    rw [if_neg]
    intro hcontra
    rw [hst] at hcontra
    cases hcontra.2
  rw [← hfix]
  exact List.mem_map_of_mem _ hn

theorem insertNote_wf (notes : List NoteRecord) (n : NoteRecord)
    (hwf : notesWFList notes) : notesWFList (insertNote notes n) := by
  unfold insertNote
  split
  · exact hwf
  · rename_i hany
    have hfresh : ∀ m ∈ notes, m.id ≠ n.id := by
      intro m hm heq
      exact hany (List.any_eq_true.2 ⟨m, hm, by simp [heq]⟩)
    intro m hm k hk hid
    rcases List.mem_append.1 hm with hm' | hm' <;>
      rcases List.mem_append.1 hk with hk' | hk'
    · exact hwf m hm' k hk' hid
    · rw [List.mem_singleton.1 hk'] at hid
      exact absurd hid (hfresh m hm')
    · rw [List.mem_singleton.1 hm'] at hid
      exact absurd hid.symm (hfresh k hk')
    · rw [List.mem_singleton.1 hm', List.mem_singleton.1 hk']

theorem insertNote_consumed (notes : List NoteRecord) (n : NoteRecord)
    (nid : NoteId) (tid : TxId) (hc : consumedIn notes nid tid) :
    consumedIn (insertNote notes n) nid tid := by
  obtain ⟨m, hm, hmid, hst⟩ := hc
  unfold insertNote
  split
  · exact ⟨m, hm, hmid, hst⟩
  · exact ⟨m, List.mem_append_left _ hm, hmid, hst⟩

theorem foldl_insertNote_inv (ns : List NoteRecord) (notes : List NoteRecord)
    (nid : NoteId) (tid : TxId)
    (h : notesWFList notes ∧ consumedIn notes nid tid) :
    notesWFList (ns.foldl insertNote notes) ∧
      consumedIn (ns.foldl insertNote notes) nid tid := by
  induction ns generalizing notes with
  | nil => exact h
  | cons n ns ih =>
    rw [List.foldl_cons]
    exact ih (insertNote notes n)
      ⟨insertNote_wf notes n h.1, insertNote_consumed notes n nid tid h.2⟩

theorem applyCommit_inv (s : Store) (c : TxId × Nat) (nid : NoteId) (tid : TxId)
    (h : NotesWF s ∧ noteConsumedBy s nid tid) :
    NotesWF (applyCommit s c) ∧ noteConsumedBy (applyCommit s c) nid tid := by
  unfold applyCommit
  cases s.transactions.find? (fun t => t.id == c.1) with
  | none => exact h
  | some t =>
    exact ⟨consumeInputs_wf s.notes t.inputNotes c.1 h.1,
      consumeInputs_consumed s.notes t.inputNotes tid c.1 nid h.2⟩

theorem foldl_applyCommit_inv (cs : List (TxId × Nat)) (s : Store) (nid : NoteId)
    (tid : TxId) (h : NotesWF s ∧ noteConsumedBy s nid tid) :
    NotesWF (cs.foldl applyCommit s) ∧ noteConsumedBy (cs.foldl applyCommit s) nid tid := by
  induction cs generalizing s with
  | nil => exact h
  | cons c cs ih =>
    rw [List.foldl_cons]
    exact ih (applyCommit s c) (applyCommit_inv s c nid tid h)

theorem sync_inv (s : Store) (d : SyncDelta) (nid : NoteId) (tid : TxId)
    (h : NotesWF s ∧ noteConsumedBy s nid tid) :
    NotesWF (sync s d) ∧ noteConsumedBy (sync s d) nid tid := by
  unfold sync
  exact foldl_applyCommit_inv d.committedTxs _ nid tid
    (foldl_insertNote_inv d.newNotes s.notes nid tid h)

theorem applyTransaction_inv (s : Store) (t : TransactionRecord) (nid : NoteId)
    (tid : TxId) (h : NotesWF s ∧ noteConsumedBy s nid tid) :
    NotesWF (applyTransaction s t) ∧ noteConsumedBy (applyTransaction s t) nid tid :=
  ⟨consumeInputs_wf s.notes t.inputNotes t.id h.1,
    consumeInputs_consumed s.notes t.inputNotes tid t.id nid h.2⟩

theorem consumed_not_consumable (s : Store) (nid : NoteId) (tid : TxId)
    (hwf : NotesWF s) (hc : noteConsumedBy s nid tid) :
    ∀ a : AcctId, ∀ m ∈ consumableNotes s a, m.id ≠ nid := by
  intro a m hm hmid
  obtain ⟨n, hn, hnid, hst⟩ := hc
  have hm' := List.mem_filter.1 hm
  have heq : m = n := hwf m hm'.1 n hn (by rw [hmid, hnid])
  have : isUnconsumed m.status = true := by
    have := hm'.2
    simp only [Bool.and_eq_true] at this
    exact this.1
  rw [heq, hst] at this
  cases this

/-- C7: once a note is recorded as consumed by a transaction, it stays
recorded as consumed by exactly that transaction across every subsequent
Store operation (sync cycles and speculative transaction applications), and
it never again appears in consumable_notes for any account. -/
theorem consumed_note_never_consumable (s s' : Store) (nid : NoteId) (tid : TxId)
    (hwf : NotesWF s) (hc : noteConsumedBy s nid tid)
    (hr : Relation.ReflTransGen Step s s') :
    noteConsumedBy s' nid tid ∧
      ∀ a : AcctId, ∀ m ∈ consumableNotes s' a, m.id ≠ nid := by
  have hinv : NotesWF s' ∧ noteConsumedBy s' nid tid := by
    induction hr with
    | refl => exact ⟨hwf, hc⟩
    | tail hr' hstep ih =>
      cases hstep with
      | syncStep d => exact sync_inv _ d nid tid ih
      | applyStep t => exact applyTransaction_inv _ t nid tid ih
  exact ⟨hinv.2, consumed_not_consumable s' nid tid hinv.1 hinv.2⟩

/-- Store with note 40 already consumed by transaction 90, and one other
unconsumed note 41. -/
def exampleConsumedStore : Store :=
  ⟨[], [⟨40, 5, .consumed 90⟩, ⟨41, 5, .unconsumed⟩], [], 0⟩

/-- C7 witness: in the concrete store, after one further (empty) sync step,
note 40 is still consumed by transaction 90 and is absent from
consumable_notes for every account. -/
theorem consumed_note_never_consumable_witness :
    noteConsumedBy (sync exampleConsumedStore ⟨1, [], [], []⟩) 40 90 ∧
      ∀ a : AcctId, ∀ m ∈ consumableNotes (sync exampleConsumedStore ⟨1, [], [], []⟩) a,
        m.id ≠ 40 :=
  consumed_note_never_consumable exampleConsumedStore
    (sync exampleConsumedStore ⟨1, [], [], []⟩) 40 90 (by decide) (by decide)
    (Relation.ReflTransGen.single (Step.syncStep exampleConsumedStore ⟨1, [], [], []⟩))

/-! ### Transaction pipeline state machine -/

/-- Modelled from the spec: the per-transaction pipeline stage
Built → Executed → Proven → Submitted → (Committed | Discarded). -/
inductive TxStage where
  | built
  | executed
  | proven
  | submitted
  | committed
  | discarded
deriving DecidableEq, Repr

/-- Modelled from the spec: the single forward arrow out of each stage; out
of Submitted the transition to Committed or Discarded is decided by the
network on sync, not by a pipeline operation, so Submitted and the terminal
stages have no operation arrow. -/
def nextStage : TxStage → Option TxStage
  | .built => some .executed
  | .executed => some .proven
  | .proven => some .submitted
  | _ => none

/-- Errors a pipeline stage operation can report. -/
inductive StageError where
  | scriptFailure
  | assetError
  | proverUnavailable
  | proofRejected
  | syncError
deriving DecidableEq, Repr

/-- Environment outcome of one attempt of a stage operation. -/
inductive StageOutcome where
  | success
  | failure (e : StageError)
deriving DecidableEq, Repr

/-- Modelled from the spec: one attempt of the operation out of stage `st`
(execute, prove or submit depending on the stage): a successful attempt
advances exactly one arrow, a failed attempt reports the error and leaves
the transaction in its last successful stage. -/
def attemptStage (st : TxStage) (o : StageOutcome) : TxStage × Option StageError :=
  match o with
  | .success =>
    match nextStage st with
    | some st' => (st', none)
    | none => (st, none)
  | .failure e => (st, some e)

/-- C5: pipeline progress happens only through the separate stage operations,
one arrow at a time — every attempt either leaves the stage unchanged or
advances it exactly one arrow, a failing attempt leaves the transaction in
its last successful stage with the error reported, a failed attempt can be
retried with the same effect as the original attempt, and the arrows are
exactly Built → Executed → Proven → Submitted. -/
theorem tx_pipeline_stagewise (st : TxStage) (o : StageOutcome) (e : StageError) :
    ((attemptStage st o).1 = st ∨ nextStage st = some (attemptStage st o).1) ∧
    attemptStage st (.failure e) = (st, some e) ∧
    attemptStage (attemptStage st (.failure e)).1 o = attemptStage st o ∧
    (nextStage .built = some .executed ∧ nextStage .executed = some .proven ∧
      nextStage .proven = some .submitted ∧ nextStage .submitted = none) := by
  refine ⟨?_, rfl, rfl, rfl, rfl, rfl, rfl⟩
  cases o with
  | success => cases st <;> simp [attemptStage, nextStage]
  | failure e => exact Or.inl rfl

/-! ### Executor with its authorization gate, and the prover dispatcher -/

/-- Errors of a local execution. -/
inductive ExecError where
  | notFound
  | scriptFailure
  | assetError
deriving DecidableEq, Repr

/-- Modelled from the spec and the configuration built in
counter_acl_example.rs: an ACL authorization component configuration —
public key commitment, the two unauthorized-note allowances, and the set of
procedure digests whose invocation triggers the authorization check. -/
structure AclConfig where
  pubKeyCommitment : Nat
  allowUnauthorizedOutputNotes : Bool
  allowUnauthorizedInputNotes : Bool
  authTriggerProcedures : List Nat
deriving DecidableEq, Repr

/-- Modelled from the spec: the authorization gate of the executor — a script
that calls a procedure in the trigger set without valid authorization is
deterministically rejected with ScriptFailure; scripts calling no trigger
procedure pass the gate. -/
def aclAuthorize (cfg : AclConfig) (calledProcedures : List Nat)
    (hasValidSignature : Bool) : Except ExecError Unit :=
  if calledProcedures.any (fun p => cfg.authTriggerProcedures.contains p) && !hasValidSignature
  then .error .scriptFailure
  else .ok ()

/-- ACL configuration as built in counter_acl_example.rs lines 148-155:
empty public key, unauthorized output and input notes allowed, and exactly
the digest of increment_count_two in the trigger list. -/
def counterAclConfig (protectedProcedure : Nat) : AclConfig :=
  ⟨0, true, true, [protectedProcedure]⟩

/-- Modelled from the spec: a transaction request as assembled by build(...) —
target account, input notes to consume, the procedure digests the script
calls, and whether a valid authorization signature is available. -/
structure TransactionRequest where
  accountId : AcctId
  inputNotes : List NoteId
  calledProcedures : List Nat
  hasValidSignature : Bool
deriving DecidableEq, Repr

/-- Modelled from the spec: ExecutionResult — the account delta (new nonce)
and the consumed note set of a successful local execution. -/
structure ExecutionResult where
  accountId : AcctId
  newNonce : Nat
  consumedNotes : List NoteId
deriving DecidableEq, Repr

/-- Modelled from the spec: execute(build(...)) — runs fully locally against
the Store's current view: looks the account up, passes the authorization
gate, checks every input note is present, unconsumed and routed to the
account, and returns the execution result paired with the Store, which it
never modifies. -/
def executeTx (s : Store) (cfg : AclConfig) (req : TransactionRequest) :
    Except ExecError ExecutionResult × Store :=
  let r :=
    match getAccount s req.accountId with
    | none => Except.error ExecError.notFound
    | some a =>
      match aclAuthorize cfg req.calledProcedures req.hasValidSignature with
      | .error e => .error e
      | .ok _ =>
        if req.inputNotes.all (fun nid => s.notes.any (fun n =>
            n.id == nid && isUnconsumed n.status && n.tag == req.accountId))
        then .ok ⟨req.accountId, a.nonce + 1, req.inputNotes⟩
        else .error .scriptFailure
  (r, s)

/-- C8: execute is deterministic and side-effect-free before submission —
it returns the Store unchanged, and re-running it against the state it
returned yields the identical result. -/
theorem execute_deterministic_side_effect_free (s : Store) (cfg : AclConfig)
    (req : TransactionRequest) :
    (executeTx s cfg req).2 = s ∧
    executeTx (executeTx s cfg req).2 cfg req = executeTx s cfg req :=
  ⟨rfl, rfl⟩

/-- C6: a transaction whose script calls a procedure in the account's
authorization trigger set without valid authorization is rejected by
execute with ScriptFailure — deterministically, whatever the Store —
while a request calling only unprotected procedures passes the gate, and
executes successfully when its account exists and it consumes no notes. -/
theorem acl_protected_rejected_open_allowed (s : Store) (cfg : AclConfig)
    (reqP reqO : TransactionRequest)
    (hp : ∃ p ∈ reqP.calledProcedures, p ∈ cfg.authTriggerProcedures)
    (hsig : reqP.hasValidSignature = false)
    (ho : ∀ q ∈ reqO.calledProcedures, q ∉ cfg.authTriggerProcedures) :
    aclAuthorize cfg reqP.calledProcedures reqP.hasValidSignature =
      .error .scriptFailure ∧
    (∀ a, getAccount s reqP.accountId = some a →
      (executeTx s cfg reqP).1 = .error .scriptFailure) ∧
    aclAuthorize cfg reqO.calledProcedures reqO.hasValidSignature = .ok () ∧
    (∀ a, getAccount s reqO.accountId = some a → reqO.inputNotes = [] →
      (executeTx s cfg reqO).1 = .ok ⟨reqO.accountId, a.nonce + 1, []⟩) := by
  obtain ⟨p, hpc, hpt⟩ := hp
  have htrig : reqP.calledProcedures.any
      (fun q => cfg.authTriggerProcedures.contains q) = true :=
    List.any_eq_true.2 ⟨p, hpc, by simpa using hpt⟩
  have hgateP : aclAuthorize cfg reqP.calledProcedures reqP.hasValidSignature =
      .error .scriptFailure := by
    unfold aclAuthorize
    rw [hsig, htrig]
    rfl
  have hnotrig : reqO.calledProcedures.any
      (fun q => cfg.authTriggerProcedures.contains q) = false := by
    rw [List.any_eq_false]
    intro q hq
    simpa using ho q hq
  have hgateO : aclAuthorize cfg reqO.calledProcedures reqO.hasValidSignature = .ok () := by
    unfold aclAuthorize
    rw [hnotrig]
    rfl
  refine ⟨hgateP, ?_, hgateO, ?_⟩
  · intro a ha
    unfold executeTx
    dsimp only
    rw [ha, hgateP]
  · intro a ha hnil
    unfold executeTx
    dsimp only
    rw [ha, hgateO, hnil]
    rfl

/-- Store holding account 5 at nonce 3, for the ACL witness. -/
def exampleAclStore : Store :=
  ⟨[⟨5, 3, 0⟩], [], [], 0⟩

/-- Unauthorized request of account 5 calling the protected procedure 7. -/
def exampleProtectedReq : TransactionRequest :=
  ⟨5, [], [7], false⟩

/-- Request of account 5 calling the unprotected procedure 4. -/
def exampleOpenReq : TransactionRequest :=
  ⟨5, [], [4], false⟩

/-- C6 witness: with the example ACL protecting procedure 7, executing the
protected call without authorization fails with ScriptFailure and the
unprotected call succeeds with the bumped nonce. -/
theorem acl_protected_rejected_open_allowed_witness :
    (executeTx exampleAclStore (counterAclConfig 7) exampleProtectedReq).1 =
      .error .scriptFailure ∧
    (executeTx exampleAclStore (counterAclConfig 7) exampleOpenReq).1 =
      .ok ⟨5, 4, []⟩ :=
  ⟨(acl_protected_rejected_open_allowed exampleAclStore (counterAclConfig 7)
      exampleProtectedReq exampleOpenReq (by decide) rfl (by decide)).2.1
      ⟨5, 3, 0⟩ rfl,
    (acl_protected_rejected_open_allowed exampleAclStore (counterAclConfig 7)
      exampleProtectedReq exampleOpenReq (by decide) rfl (by decide)).2.2.2
      ⟨5, 3, 0⟩ rfl rfl⟩

/-- Errors of the prover dispatcher. -/
inductive ProveError where
  | proverUnavailable
  | proofRejected
deriving DecidableEq, Repr

/-- Modelled from the spec: the two prover variants behind the single prove
interface — the local prover, and a remote prover addressed by endpoint. -/
inductive Prover where
  | localProver
  | remoteProver (endpoint : String)
deriving DecidableEq, Repr

/-- Deterministic digest of an execution result, identifying the witness a
proof certifies. -/
def execDigest (r : ExecutionResult) : Nat :=
  Nat.pair r.accountId (Nat.pair r.newNonce (r.consumedNotes.foldr Nat.pair 0))

/-- A validity proof: certifies exactly the witness whose digest it carries. -/
structure TxProof where
  witnessDigest : Nat
deriving DecidableEq, Repr

/-- Modelled from the spec: prove(ExecutionResult, prover) — both variants
are invoked through this one interface; the local prover always produces the
proof of the given witness, the remote prover produces the same proof when
the service is reachable and reports ProverUnavailable otherwise. -/
def proveWith (p : Prover) (r : ExecutionResult) (remoteUp : Bool) :
    Except ProveError TxProof :=
  match p with
  | .localProver => .ok ⟨execDigest r⟩
  | .remoteProver _ => if remoteUp then .ok ⟨execDigest r⟩ else .error .proverUnavailable

/-- Modelled from the spec: the submission step accepts a proven transaction
iff the proof certifies exactly the execution result submitted with it. -/
def submissionAccepts (pf : TxProof) (r : ExecutionResult) : Bool :=
  pf.witnessDigest == execDigest r

/-- C2: local and remote proving are interchangeable — whenever the remote
prover returns a proof for an execution result, the local prover invoked
through the identical interface returns the very same proof, and either
proof is accepted by the submission step. -/
theorem prover_agnostic_submission (r : ExecutionResult) (e : String) (pf : TxProof)
    (h : proveWith (.remoteProver e) r true = .ok pf) :
    proveWith .localProver r true = .ok pf ∧
    submissionAccepts pf r = true ∧
    (∀ pfl, proveWith .localProver r true = .ok pfl → submissionAccepts pfl r = true) := by
  have hpf : pf = ⟨execDigest r⟩ := by
    unfold proveWith at h
    rw [if_pos rfl] at h
    cases h
    rfl
  subst hpf
  refine ⟨rfl, ?_, ?_⟩
  · unfold submissionAccepts
    simp
  · intro pfl hl
    unfold proveWith at hl
    cases hl
    unfold submissionAccepts
    simp

/-- Execution result used in the prover witness. -/
def exampleExecResult : ExecutionResult :=
  ⟨5, 4, [40]⟩

/-- C2 witness: for the concrete execution result, the remote path returns
the proof of its digest, the local path returns the identical proof, and
submission accepts it. -/
theorem prover_agnostic_submission_witness :
    proveWith .localProver exampleExecResult true = .ok ⟨execDigest exampleExecResult⟩ ∧
    submissionAccepts ⟨execDigest exampleExecResult⟩ exampleExecResult = true :=
  ⟨(prover_agnostic_submission exampleExecResult "https://tx-prover.testnet.miden.io"
      ⟨execDigest exampleExecResult⟩ rfl).1,
    (prover_agnostic_submission exampleExecResult "https://tx-prover.testnet.miden.io"
      ⟨execDigest exampleExecResult⟩ rfl).2.1⟩
